import Mathlib

/-!
Verification of the scrum-guide repository's interactive widgets.

Shallow embedding of the JavaScript sources under assets/js/:
wsjf_calculator_js.js (WSJF namespace), content-loader.js (Loader
namespace), sprint_board_js.js and sprint_board.js (Board namespace),
tabs.js (Tabs namespace).  JavaScript numbers are modelled as rationals
(integers where the source only ever holds integers), fallible code by
Option/Except, the DOM by explicit record states, and localStorage by an
explicit storage value.  Nondeterministic sources (Date.now, random id
suffixes, ISO timestamps) are modelled by explicit parameters and a
deterministic id counter; uniqueness of ids is all the code relies on.
-/

namespace ScrumGuide

namespace WSJF

/-- The values record held by the calculator (wsjf_calculator_js.js,
constructor, lines 9-14). -/
structure Values where
  businessValue : ℚ
  urgency : ℚ
  riskReduction : ℚ
  effort : ℚ
  deriving DecidableEq

/-- Default values of the constructor and of resetValues. -/
def initialValues : Values := ⟨8, 5, 3, 8⟩

/-- config.fibonacciScale (line 19). -/
def fibonacciScale : List ℚ := [1, 2, 3, 5, 8, 13, 21]

/-- The comparator passed to Array.prototype.reduce in
getClosestFibonacci (lines 260-264). -/
def fibStep (value prev curr : ℚ) : ℚ :=
  if |curr - value| < |prev - value| then curr else prev

/-- Array.prototype.reduce with no initial accumulator: the head seeds
the fold (reduce on an empty array throws; the scale is never empty, we
return 0 in that unreachable case). -/
def jsReduce (f : ℚ → ℚ → ℚ) : List ℚ → ℚ
  | [] => 0
  | h :: t => t.foldl f h

/-- WSJFCalculator.getClosestFibonacci (lines 260-264). -/
def getClosestFibonacci (value : ℚ) : ℚ :=
  jsReduce (fibStep value) fibonacciScale

/-- Number.prototype.toFixed(p) followed by parseFloat: round half up to
p decimal places (the values here are nonnegative rationals). -/
def roundTo (p : ℕ) (x : ℚ) : ℚ :=
  ((Int.floor (x * 10 ^ p + 1 / 2) : ℤ) : ℚ) / 10 ^ p

/-- WSJFCalculator.calculateWSJF (lines 279-317): guard against zero
effort, then (businessValue + urgency + riskReduction) / effort rounded
to the configured precision. -/
def calculateWSJF (v : Values) (precision : ℕ) : Except String ℚ :=
  if v.effort = 0 then
    Except.error "El esfuerzo no puede ser 0"
  else
    Except.ok (roundTo precision
      ((v.businessValue + v.urgency + v.riskReduction) / v.effort))

/-- config.precision = props.precision || 1 (line 22): any falsy value
(absent or 0) falls back to 1. -/
def mkPrecision : Option ℕ → ℕ
  | none => 1
  | some 0 => 1
  | some (n + 1) => n + 1

/-- config.maxHistory = props.maxHistory || 10 (line 21). -/
def mkMaxHistory : Option ℕ → ℕ
  | none => 10
  | some 0 => 10
  | some (n + 1) => n + 1

/-- WSJFCalculator.saveCalculation, history management only (lines
505-510): unshift the new entry, then slice(0, maxHistory) whenever the
length exceeds the limit. -/
def saveCalculation {α : Type} (maxHistory : ℕ) (history : List α) (entry : α) :
    List α :=
  if maxHistory < (entry :: history).length then (entry :: history).take maxHistory
  else entry :: history

/-- The four slider ids of the calculator. -/
inductive Param
  | businessValue
  | urgency
  | riskReduction
  | effort

/-- this.values[parameterId] = value. -/
def setParam (s : Values) (p : Param) (x : ℚ) : Values :=
  match p with
  | .businessValue => { s with businessValue := x }
  | .urgency => { s with urgency := x }
  | .riskReduction => { s with riskReduction := x }
  | .effort => { s with effort := x }

/-- WSJFCalculator.handleSliderChange (lines 150-171), state part: the
raw slider value is snapped to the closest Fibonacci value before being
stored. -/
def handleSliderChange (s : Values) (p : Param) (raw : ℚ) : Values :=
  setParam s p (getClosestFibonacci raw)

/-- One key of the newValues object of setValues: when present it is
snapped to the closest Fibonacci value before being stored. -/
def maybeSnap (s : Values) (p : Param) : Option ℚ → Values
  | some x => setParam s p (getClosestFibonacci x)
  | none => s

/-- WSJFCalculator.setValues (lines 765-778), state part: each supplied
key is snapped to the closest Fibonacci value before being stored. -/
def setValues (s : Values) (bv u rr e : Option ℚ) : Values :=
  maybeSnap
    (maybeSnap (maybeSnap (maybeSnap s .businessValue bv) .urgency u)
      .riskReduction rr) .effort e

/-- Value states reachable through the calculator's own mutators:
the constructor defaults, resetValues, handleSliderChange and
setValues. -/
inductive ReachableValues : Values → Prop
  | init : ReachableValues initialValues
  | reset {s : Values} : ReachableValues s → ReachableValues initialValues
  | slider {s : Values} (p : Param) (raw : ℚ) :
      ReachableValues s → ReachableValues (handleSliderChange s p raw)
  | setVals {s : Values} (bv u rr e : Option ℚ) :
      ReachableValues s → ReachableValues (setValues s bv u rr e)

end WSJF

-- DEFS-SECTIONS-BELOW

namespace Loader

/-- One entry of config.sections (content-loader.js, lines 11-39). -/
structure SectionConfig where
  title : String
  file : String
  icon : String
  deriving DecidableEq

/-- config.sections (lines 12-38): the five configured section ids. -/
def sections : List (String × SectionConfig) :=
  [("scrum-foundations",
      ⟨"Fundamentos SCRUM", "sections/scrum-foundations.html", "📋"⟩),
   ("estimacion-agil",
      ⟨"Estimación Ágil", "sections/estimacion-agil.html", "📊"⟩),
   ("medicion-metricas",
      ⟨"Medición & Métricas", "sections/medicion-metricas.html", "📈"⟩),
   ("aplicacion-practica",
      ⟨"Aplicación Práctica", "sections/aplicacion-practica.html", "⚡"⟩),
   ("recursos-herramientas",
      ⟨"Recursos & Herramientas", "sections/recursos-herramientas.html", "🛠️"⟩)]

/-- this.getSectionConfig()[sectionId] (lines 55-57, 111). -/
def getSectionConfig (id : String) : Option SectionConfig :=
  (sections.find? (fun kv => kv.1 == id)).map (·.2)

/-- The loader state: the caching Map and currentSection
(constructor, lines 8-9). -/
structure LoaderState where
  cache : List (String × String)
  currentSection : Option String
  deriving DecidableEq

/-- Map.prototype.get on the cache. -/
def cacheGet (c : List (String × String)) (id : String) : Option String :=
  (c.find? (fun kv => kv.1 == id)).map (·.2)

/-- Map.prototype.set on the cache. -/
def cacheSet : List (String × String) → String → String → List (String × String)
  | [], id, content => [(id, content)]
  | kv :: rest, id, content =>
    if kv.1 == id then (id, content) :: rest
    else kv :: cacheSet rest id content

/-- Result of one loadSection call: the new state, how many network
fetches it performed, and the content handed to renderSection (if
any). -/
structure LoadResult where
  state : LoaderState
  fetches : ℕ
  rendered : Option String
  deriving DecidableEq

/-- JavaScript falsiness of the cache lookup in the guard
if (!content): an absent entry (undefined) and the empty string are
both falsy. -/
def isFalsy : Option String → Bool
  | none => true
  | some s => s == ""

/-- ContentLoader.loadSection (lines 110-142) with
fetchSectionContent (lines 147-162) modelled by an oracle from file
names to fetched content (none = network/HTTP failure, which
fetchSectionContent rethrows and loadSection catches: showError leaves
cache and currentSection untouched).  The cache-hit test of line 122 is
if (!content), a falsiness check: a cached empty string counts as a
miss and is fetched again. -/
def loadSection (oracle : String → Option String) (s : LoaderState)
    (id : String) : LoadResult :=
  match getSectionConfig id with
  | none => ⟨s, 0, none⟩
  | some cfg =>
    let content := cacheGet s.cache id
    if isFalsy content then
      match oracle cfg.file with
      | some fetched =>
        ⟨⟨cacheSet s.cache id fetched, some id⟩, 1, some fetched⟩
      | none => ⟨s, 0, none⟩
    else ⟨⟨s.cache, some id⟩, 0, content⟩

/-- Number of fetches attributed to the section id target along a
sequence of loadSection calls. -/
def loadSeqCount (oracle : String → Option String) (s : LoaderState)
    (target : String) : List String → ℕ
  | [] => 0
  | i :: is =>
    (if i == target then (loadSection oracle s i).fetches else 0) +
      loadSeqCount oracle (loadSection oracle s i).state target is

/-- The inline WSJF calculator installed by
ContentLoader.setupWSJFCalculator (lines 348-369): two-decimal result,
0 when effort is not positive. -/
def setupWSJFCalculator (bv u rr e : ℚ) : ℚ :=
  if 0 < e then WSJF.roundTo 2 ((bv + u + rr) / e) else 0

end Loader


namespace Tabs

/-- A .tab-button element: its data-tab attribute, whether it has the
active class, and its aria-selected attribute (none = attribute not
set). -/
structure TabButton where
  dataTab : Option String
  active : Bool
  ariaSelected : Option String
  deriving DecidableEq

/-- A .tab-content element: its id, whether it has the active class,
and its aria-hidden attribute. -/
structure TabContent where
  id : String
  active : Bool
  ariaHidden : Option String
  deriving DecidableEq

/-- One tab container (.example-container wrapping .example-tabs): the
tab buttons and the tab contents that live inside it. -/
structure TabContainer where
  buttons : List TabButton
  contents : List TabContent
  deriving DecidableEq

/-- The document: a list of tab containers (every .tab-button and
.tab-content of the page lives in exactly one of them). -/
structure Doc where
  containers : List TabContainer
  deriving DecidableEq

/-- The button clicked: container index, then button index. -/
def getButton (d : Doc) (ci bi : ℕ) : Option TabButton :=
  (d.containers.get? ci).bind (fun c => c.buttons.get? bi)

/-- Apply f to the container holding the clicked button
(closest('.example-container') / the .example-tabs container). -/
def updateContainer (d : Doc) (ci : ℕ) (f : TabContainer → TabContainer) :
    Doc :=
  ⟨d.containers.mapIdx (fun j c => if j = ci then f c else c)⟩

/-- Apply f to the clicked button only. -/
def setButtonAt (d : Doc) (ci bi : ℕ) (f : TabButton → TabButton) : Doc :=
  updateContainer d ci (fun c =>
    ⟨c.buttons.mapIdx (fun j b => if j = bi then f b else b), c.contents⟩)

/-- Apply f to the first content with the given id in a content list;
the Bool reports whether it was found. -/
def applyFirstContent (f : TabContent → TabContent) :
    List TabContent → String → List TabContent × Bool
  | [], _ => ([], false)
  | c :: cs, tid =>
    if c.id == tid then (f c :: cs, true)
    else
      let r := applyFirstContent f cs tid
      (c :: r.1, r.2)

/-- document.getElementById(tid) followed by applying f to the found
element: the first matching content in document order. -/
def applyFirstContainers (f : TabContent → TabContent) :
    List TabContainer → String → List TabContainer
  | [], _ => []
  | c :: cs, tid =>
    let r := applyFirstContent f c.contents tid
    if r.2 then ⟨c.buttons, r.1⟩ :: cs
    else c :: applyFirstContainers f cs tid

/-- TabManager.switchTab (tabs.js, lines 72-106): scoped to the
enclosing container, maintains aria attributes, then activates the
content found document-wide by id. -/
def switchTab (d : Doc) (ci bi : ℕ) : Doc :=
  match getButton d ci bi with
  | none => d
  | some b =>
    match b.dataTab with
    | none => d
    | some tabName =>
      if tabName == "" then d
      else
        let d1 := updateContainer d ci (fun c =>
          ⟨c.buttons.map (fun btn =>
              { btn with active := false, ariaSelected := some "false" }),
           c.contents.map (fun ct =>
              { ct with active := false, ariaHidden := some "true" })⟩)
        let d2 := setButtonAt d1 ci bi (fun btn =>
          { btn with active := true, ariaSelected := some "true" })
        ⟨applyFirstContainers
            (fun ct => { ct with active := true, ariaHidden := some "false" })
            d2.containers tabName⟩

/-- The click handler installed by ContentLoader.initializeTabs
(content-loader.js, lines 289-313): deactivates the buttons of the
clicked container but every .tab-content in the whole document, and
never touches aria attributes. -/
def loaderTabClick (d : Doc) (ci bi : ℕ) : Doc :=
  match getButton d ci bi with
  | none => d
  | some b =>
    let d1 := updateContainer d ci (fun c =>
      ⟨c.buttons.map (fun btn => { btn with active := false }), c.contents⟩)
    let d2 : Doc := ⟨d1.containers.map (fun c =>
      ⟨c.buttons, c.contents.map (fun ct => { ct with active := false })⟩)⟩
    let d3 := setButtonAt d2 ci bi (fun btn => { btn with active := true })
    match b.dataTab with
    | some tabName =>
      ⟨applyFirstContainers (fun ct => { ct with active := true })
          d3.containers tabName⟩
    | none => d3

/-- The ids of the contents carrying the active class, in document
order. -/
def activeContentIds (d : Doc) : List String :=
  (d.containers.map (fun c => (c.contents.filter (·.active)).map (·.id))).flatten

/-- The aria-selected attributes of all buttons, in document order. -/
def buttonAriaSelected (d : Doc) : List (Option String) :=
  (d.containers.map (fun c => c.buttons.map (·.ariaSelected))).flatten

end Tabs


namespace Board

/-- A task of the sprint board (sprint_board_js.js): the fields written
by loadDefaultTasks, createTask, updateTask, handleDrop and moveTask.
Story points are integers (parseInt of the form input). -/
structure Task where
  id : String
  title : String
  description : String
  storyPoints : ℤ
  priority : String
  status : String
  type : String
  assignee : String
  tags : List String
  createdAt : String
  updatedAt : String
  movedAt : String
  deriving DecidableEq

/-- The constructor props relevant to the modelled behaviour
(sprint_board_js.js, lines 14-35). -/
structure BoardProps where
  sprintName : Option String
  sprintDates : Option String
  autoSave : Option Bool
  maxTasksPerColumn : Option ℕ
  deriving DecidableEq

/-- The resolved configuration. -/
structure BoardConfig where
  sprintName : String
  sprintDates : String
  autoSave : Bool
  maxTasksPerColumn : Option ℕ
  deriving DecidableEq

/-- props.x || default for strings: the empty string is falsy. -/
def jsOrDefault (o : Option String) (d : String) : String :=
  match o with
  | some s => if s = "" then d else s
  | none => d

/-- The config computed by the constructor (lines 14-35):
sprintName/sprintDates via ||, autoSave = props.autoSave !== false,
maxTasksPerColumn = props.maxTasksPerColumn || null (0 is falsy). -/
def mkBoardConfig (p : BoardProps) : BoardConfig :=
  { sprintName := jsOrDefault p.sprintName "Sprint 1"
    sprintDates := jsOrDefault p.sprintDates "1 Nov - 15 Nov 2024"
    autoSave := match p.autoSave with
      | some false => false
      | _ => true
    maxTasksPerColumn := match p.maxTasksPerColumn with
      | some 0 => none
      | x => x }

/-- The ids of config.defaultColumns (lines 21-26): the four enum-like
column states. -/
def validColumns : List String := ["backlog", "progress", "review", "done"]

/-- The JSON object written by saveData (lines 996-1001) as read back
by loadData: each field may be absent in arbitrary stored JSON. -/
structure StoredData where
  tasks : Option (List Task)
  sprintName : Option String
  sprintDates : Option String
  lastSaved : String
  deriving DecidableEq

/-- localStorage at the board's storageKey: none = no entry,
some none = an entry JSON.parse rejects, some (some d) = an entry
parsing to d. -/
abbrev Storage : Type := Option (Option StoredData)

/-- SprintBoard.loadDefaultTasks (lines 899-967).  The Date.now-based
id generator and ISO timestamps are modelled by sequential ids and a
now parameter. -/
def loadDefaultTasks (now : String) : List Task :=
  [⟨"task-1", "Implementar Login OAuth",
      "Integración con Azure AD para autenticación", 8, "high", "backlog",
      "feature", "Juan Pérez", ["frontend", "auth", "azure"], now, now, ""⟩,
   ⟨"task-2", "API de Productos", "CRUD completo con Entity Framework",
      5, "medium", "backlog", "feature", "María González",
      ["backend", "api", "dotnet"], now, now, ""⟩,
   ⟨"task-3", "Componente Angular Cart", "Carrito de compras con persistencia",
      3, "high", "progress", "feature", "Carlos López",
      ["frontend", "angular", "ecommerce"], now, now, ""⟩,
   ⟨"task-4", "Unit Tests Productos", "Testing con xUnit y Moq",
      2, "medium", "review", "task", "Ana Silva",
      ["testing", "backend"], now, now, ""⟩,
   ⟨"task-5", "Setup .NET Core API", "Proyecto base con Clean Architecture",
      3, "high", "done", "task", "Luis Martín",
      ["backend", "architecture"], now, now, ""⟩]

/-- SprintBoard.saveData (lines 992-1006): a no-op unless autoSave;
otherwise overwrite the entry with tasks, sprintName, sprintDates and
lastSaved. -/
def saveData (cfg : BoardConfig) (tasks : List Task) (now : String)
    (st : Storage) : Storage :=
  if cfg.autoSave then
    some (some ⟨some tasks, some cfg.sprintName, some cfg.sprintDates, now⟩)
  else st

/-- SprintBoard.loadData (lines 972-987): restore tasks (|| []) and the
truthy sprintName/sprintDates from a parsed entry; fall back to the
default tasks when there is no entry or parsing throws. -/
def loadData (cfg : BoardConfig) (st : Storage) (now : String) :
    List Task × BoardConfig :=
  match st with
  | some (some d) =>
    (d.tasks.getD [],
     { cfg with
        sprintName := match d.sprintName with
          | some s => if s = "" then cfg.sprintName else s
          | none => cfg.sprintName
        sprintDates := match d.sprintDates with
          | some s => if s = "" then cfg.sprintDates else s
          | none => cfg.sprintDates })
  | some none => (loadDefaultTasks now, cfg)
  | none => (loadDefaultTasks now, cfg)

/-- The mutable component state: this.tasks, the id-generator supply
and the localStorage entry. -/
structure BoardState where
  tasks : List Task
  nextId : ℕ
  storage : Storage
  deriving DecidableEq

/-- SprintBoard.generateTaskId (line 1015) with the nondeterministic
suffix modelled by a counter. -/
def generateTaskId (n : ℕ) : String := "task-" ++ toString n

/-- SprintBoard.findTaskById (lines 1011-1013). -/
def findTaskById (tasks : List Task) (taskId : String) : Option Task :=
  tasks.find? (fun t => t.id == taskId)

/-- In-place mutation of the object returned by findTaskById: rewrite
the first task with the given id. -/
def updateFirstTask : List Task → String → (Task → Task) → List Task
  | [], _, _ => []
  | t :: ts, taskId, f =>
    if t.id == taskId then f t :: ts else t :: updateFirstTask ts taskId f

/-- Array.prototype.splice(index, 1) at the index found by findIndex. -/
def eraseFirstTask : List Task → String → List Task
  | [], _ => []
  | t :: ts, taskId => if t.id == taskId then ts else t :: eraseFirstTask ts taskId

/-- The task form data assembled by handleTaskSubmit (lines 477-489). -/
structure TaskFormData where
  title : String
  description : String
  storyPoints : ℤ
  priority : String
  assignee : String
  type : String
  tags : List String
  deriving DecidableEq

/-- SprintBoard.createTask (lines 523-547): push a new backlog task and
save. -/
def createTask (cfg : BoardConfig) (now : String) (s : BoardState)
    (d : TaskFormData) : BoardState :=
  let task : Task :=
    { id := generateTaskId s.nextId
      title := d.title
      description := d.description
      storyPoints := d.storyPoints
      priority := d.priority
      status := "backlog"
      type := d.type
      assignee := d.assignee
      tags := d.tags
      createdAt := now
      updatedAt := now
      movedAt := "" }
  let tasks := s.tasks ++ [task]
  ⟨tasks, s.nextId + 1, saveData cfg tasks now s.storage⟩

/-- SprintBoard.updateTask (lines 552-573): Object.assign of the form
fields plus updatedAt (status untouched); Task not found throws, which
the caller catches leaving the state unchanged. -/
def updateTask (cfg : BoardConfig) (now : String) (s : BoardState)
    (taskId : String) (d : TaskFormData) : BoardState :=
  match findTaskById s.tasks taskId with
  | none => s
  | some _ =>
    let tasks := updateFirstTask s.tasks taskId (fun t =>
      { t with
        title := d.title
        description := d.description
        storyPoints := d.storyPoints
        priority := d.priority
        assignee := d.assignee
        type := d.type
        tags := d.tags
        updatedAt := now })
    ⟨tasks, s.nextId, saveData cfg tasks now s.storage⟩

/-- SprintBoard.deleteTask (lines 701-718): splice out the found task
and save; findIndex -1 returns unchanged. -/
def deleteTask (cfg : BoardConfig) (now : String) (s : BoardState)
    (taskId : String) : BoardState :=
  match findTaskById s.tasks taskId with
  | none => s
  | some _ =>
    let tasks := eraseFirstTask s.tasks taskId
    ⟨tasks, s.nextId, saveData cfg tasks now s.storage⟩

/-- SprintBoard.handleDrop (lines 354-403): guards — task found, status
differs from the target column, and the target column not full when
maxTasksPerColumn is configured — then set status and movedAt and
save. -/
def handleDrop (cfg : BoardConfig) (now : String) (s : BoardState)
    (taskId targetColumnId : String) : BoardState :=
  match findTaskById s.tasks taskId with
  | none => s
  | some task =>
    if task.status == targetColumnId then s
    else
      match cfg.maxTasksPerColumn with
      | some m =>
        if m ≤ (s.tasks.filter (fun t => t.status == targetColumnId)).length
        then s
        else
          let tasks := updateFirstTask s.tasks taskId (fun t =>
            { t with
              status := targetColumnId
              movedAt := now })
          ⟨tasks, s.nextId, saveData cfg tasks now s.storage⟩
      | none =>
        let tasks := updateFirstTask s.tasks taskId (fun t =>
          { t with
            status := targetColumnId
            movedAt := now })
        ⟨tasks, s.nextId, saveData cfg tasks now s.storage⟩

/-- SprintBoard.moveTask (lines 1126-1139): the public API sets the
status with no validation of the target, no column-limit check and no
movedAt stamp, then saves; a missing task does nothing. -/
def moveTask (cfg : BoardConfig) (now : String) (s : BoardState)
    (taskId newStatus : String) : BoardState :=
  match findTaskById s.tasks taskId with
  | none => s
  | some _ =>
    let tasks := updateFirstTask s.tasks taskId (fun t =>
      { t with status := newStatus })
    ⟨tasks, s.nextId, saveData cfg tasks now s.storage⟩

/-- The board mutators named by the claims. -/
inductive BoardOp
  | create (now : String) (d : TaskFormData)
  | drop (now taskId target : String)
  | update (now taskId : String) (d : TaskFormData)
  | del (now taskId : String)
  | move (now taskId target : String)

def applyOp (cfg : BoardConfig) (s : BoardState) : BoardOp → BoardState
  | .create now d => createTask cfg now s d
  | .drop now taskId target => handleDrop cfg now s taskId target
  | .update now taskId d => updateTask cfg now s taskId d
  | .del now taskId => deleteTask cfg now s taskId
  | .move now taskId target => moveTask cfg now s taskId target

def applyOps (cfg : BoardConfig) (s : BoardState) (ops : List BoardOp) :
    BoardState :=
  ops.foldl (applyOp cfg) s

/-- Whether an operation's target column (for drop and move) is one of
the four column ids. -/
def opTargetValid : BoardOp → Bool
  | .drop _ _ target => decide (target ∈ validColumns)
  | .move _ _ target => decide (target ∈ validColumns)
  | _ => true

/-- A move event applied to one fixed task: a drag-and-drop
(handleDrop) or a programmatic moveTask. -/
inductive MoveEvent
  | drop (now target : String)
  | move (now target : String)

def eventTarget : MoveEvent → String
  | .drop _ target => target
  | .move _ target => target

def applyEvent (cfg : BoardConfig) (s : BoardState) (taskId : String) :
    MoveEvent → BoardState
  | .drop now target => handleDrop cfg now s taskId target
  | .move now target => moveTask cfg now s taskId target

/-- Whether the event is accepted (actually applies its move) in the
given state: handleDrop requires the task, a different target and a
non-full column; moveTask only requires the task. -/
def eventAccepted (cfg : BoardConfig) (s : BoardState) (taskId : String) :
    MoveEvent → Bool
  | .drop _ target =>
    match findTaskById s.tasks taskId with
    | none => false
    | some task =>
      if task.status == target then false
      else
        match cfg.maxTasksPerColumn with
        | some m =>
          decide ((s.tasks.filter (fun t => t.status == target)).length < m)
        | none => true
  | .move _ _ => (findTaskById s.tasks taskId).isSome

def acceptedRun (cfg : BoardConfig) (taskId : String) :
    BoardState → List MoveEvent → Bool
  | _, [] => true
  | s, e :: es =>
    eventAccepted cfg s taskId e &&
      acceptedRun cfg taskId (applyEvent cfg s taskId e) es

def applyEvents (cfg : BoardConfig) (taskId : String) (s : BoardState)
    (es : List MoveEvent) : BoardState :=
  es.foldl (fun st e => applyEvent cfg st taskId e) s

def statusOf (s : BoardState) (taskId : String) : Option String :=
  (findTaskById s.tasks taskId).map (fun t => t.status)

/-- The status-enum invariant: every task sits in one of the four
columns. -/
def StatusInv (s : BoardState) : Prop :=
  ∀ t ∈ s.tasks, t.status ∈ validColumns

/-- The metrics record (constructor, lines 39-44). -/
structure Metrics where
  totalSP : ℤ
  completedSP : ℤ
  progressPercentage : ℤ
  deriving DecidableEq

/-- Math.round: round half toward positive infinity. -/
def jsRound (x : ℚ) : ℤ := Int.floor (x + 1 / 2)

/-- SprintBoard.updateMetrics (sprint_board_js.js, lines 748-763). -/
def updateMetrics (tasks : List Task) : Metrics :=
  let totalSP := (tasks.map (fun t => t.storyPoints)).sum
  let completedSP :=
    ((tasks.filter (fun t => t.status == "done")).map
      (fun t => t.storyPoints)).sum
  { totalSP := totalSP
    completedSP := completedSP
    progressPercentage :=
      if 0 < totalSP then jsRound ((completedSP : ℚ) / (totalSP : ℚ) * 100)
      else 0 }

/-- A .task-card as read by sprint_board.js: its data-story-points
(parseInt || 0) and the column it currently sits in. -/
structure TaskCard where
  storyPoints : ℤ
  column : String
  deriving DecidableEq

/-- updateSprintProgress (sprint_board.js, lines 87-103). -/
def updateSprintProgress (cards : List TaskCard) : Metrics :=
  let totalSP := (cards.map (fun c => c.storyPoints)).sum
  let completedSP :=
    ((cards.filter (fun c => c.column == "done")).map
      (fun c => c.storyPoints)).sum
  { totalSP := totalSP
    completedSP := completedSP
    progressPercentage :=
      if 0 < totalSP then jsRound ((completedSP : ℚ) / (totalSP : ℚ) * 100)
      else 0 }

end Board

-- THEOREMS-SECTIONS-BELOW

namespace WSJF

lemma fibStep_cases (v a c : ℚ) : fibStep v a c = a ∨ fibStep v a c = c := by
  unfold fibStep
  split
  · exact Or.inr rfl
  · exact Or.inl rfl

lemma fibStep_dist_le_left (v a c : ℚ) :
    |fibStep v a c - v| ≤ |a - v| := by
  unfold fibStep
  split
  · next h => exact le_of_lt h
  · exact le_refl _

lemma fibStep_dist_le_right (v a c : ℚ) :
    |fibStep v a c - v| ≤ |c - v| := by
  unfold fibStep
  split
  · exact le_refl _
  · next h => exact not_lt.mp h

lemma foldl_fibStep_mem (v : ℚ) :
    ∀ (t : List ℚ) (a : ℚ), t.foldl (fibStep v) a ∈ a :: t := by
  intro t
  induction t with
  | nil => intro a; simp
  | cons c t ih =>
    intro a
    simp only [List.foldl_cons]
    rcases List.mem_cons.mp (ih (fibStep v a c)) with h1 | h1
    · rcases fibStep_cases v a c with h2 | h2 <;> rw [h1, h2] <;> simp
    · simp [h1]

lemma foldl_fibStep_min (v : ℚ) :
    ∀ (t : List ℚ) (a : ℚ),
      |t.foldl (fibStep v) a - v| ≤ |a - v| ∧
      ∀ x ∈ t, |t.foldl (fibStep v) a - v| ≤ |x - v| := by
  intro t
  induction t with
  | nil => intro a; exact ⟨le_refl _, by simp⟩
  | cons c t ih =>
    intro a
    obtain ⟨h1, h2⟩ := ih (fibStep v a c)
    simp only [List.foldl_cons]
    refine ⟨h1.trans (fibStep_dist_le_left v a c), ?_⟩
    intro x hx
    rcases List.mem_cons.mp hx with rfl | hx
    · exact h1.trans (fibStep_dist_le_right v a x)
    · exact h2 x hx

lemma foldl_fibStep_leftmost (v : ℚ) :
    ∀ (t : List ℚ) (a : ℚ),
      ∃ l1 l2, a :: t = l1 ++ t.foldl (fibStep v) a :: l2 ∧
        ∀ y ∈ l1, |t.foldl (fibStep v) a - v| < |y - v| := by
  intro t
  induction t with
  | nil => intro a; exact ⟨[], [], rfl, by simp⟩
  | cons c t ih =>
    intro a
    obtain ⟨l1, l2, heq, hlt⟩ := ih (fibStep v a c)
    simp only [List.foldl_cons]
    have hmin := (foldl_fibStep_min v t (fibStep v a c)).1
    by_cases hc : |c - v| < |a - v|
    · have hs : fibStep v a c = c := if_pos hc
      rw [hs] at heq hlt hmin
      refine ⟨a :: l1, l2, ?_, ?_⟩
      · rw [hs, List.cons_append, ← heq]
      · intro y hy
        rcases List.mem_cons.mp hy with rfl | hy
        · rw [hs]; exact lt_of_le_of_lt hmin hc
        · rw [hs]; exact hlt y hy
    · have hs : fibStep v a c = a := if_neg hc
      rw [hs] at heq hlt hmin
      have hac : |a - v| ≤ |c - v| := not_lt.mp hc
      cases l1 with
      | nil =>
        simp only [List.nil_append] at heq
        injection heq with h1 h2
        refine ⟨[], c :: l2, ?_, by simp⟩
        rw [List.nil_append, hs, ← h1, ← h2]
      | cons b l1' =>
        rw [List.cons_append] at heq
        injection heq with h1 h2
        subst h1
        refine ⟨a :: c :: l1', l2, ?_, ?_⟩
        · rw [hs, List.cons_append, List.cons_append]
          conv_lhs => rw [h2]
        · intro y hy
          simp only [hs]
          have hra : |t.foldl (fibStep v) a - v| < |a - v| :=
            hlt a (List.mem_cons_self a l1')
          rcases List.mem_cons.mp hy with rfl | hy
          · exact hra
          rcases List.mem_cons.mp hy with rfl | hy
          · exact lt_of_lt_of_le hra hac
          · exact hlt y (List.mem_cons_of_mem _ hy)

lemma getClosestFibonacci_mem (v : ℚ) :
    getClosestFibonacci v ∈ fibonacciScale := by
  have h := foldl_fibStep_mem v [2, 3, 5, 8, 13, 21] 1
  simpa [getClosestFibonacci, jsReduce, fibonacciScale] using h

lemma getClosestFibonacci_min (v : ℚ) :
    ∀ f ∈ fibonacciScale, |getClosestFibonacci v - v| ≤ |f - v| := by
  intro f hf
  have h := foldl_fibStep_min v [2, 3, 5, 8, 13, 21] 1
  have hmem : f ∈ (1 : ℚ) :: [2, 3, 5, 8, 13, 21] := by
    simpa [fibonacciScale] using hf
  rcases List.mem_cons.mp hmem with rfl | hmem
  · simpa [getClosestFibonacci, jsReduce, fibonacciScale] using h.1
  · simpa [getClosestFibonacci, jsReduce, fibonacciScale] using h.2 f hmem

lemma getClosestFibonacci_leftmost (v : ℚ) :
    ∃ l1 l2, fibonacciScale = l1 ++ getClosestFibonacci v :: l2 ∧
      ∀ y ∈ l1, |getClosestFibonacci v - v| < |y - v| := by
  have h := foldl_fibStep_leftmost v [2, 3, 5, 8, 13, 21] 1
  simpa [getClosestFibonacci, jsReduce, fibonacciScale] using h

lemma one_le_of_mem_scale {x : ℚ} (hx : x ∈ fibonacciScale) : 1 ≤ x := by
  simp only [fibonacciScale, List.mem_cons, List.mem_singleton,
    List.not_mem_nil, or_false] at hx
  rcases hx with rfl | rfl | rfl | rfl | rfl | rfl | rfl <;> norm_num

/-- All four stored values stay on the Fibonacci scale. -/
def OnScale (s : Values) : Prop :=
  s.businessValue ∈ fibonacciScale ∧ s.urgency ∈ fibonacciScale ∧
    s.riskReduction ∈ fibonacciScale ∧ s.effort ∈ fibonacciScale

lemma initial_onScale : OnScale initialValues := by
  refine ⟨?_, ?_, ?_, ?_⟩ <;> simp [initialValues, fibonacciScale]

lemma setParam_onScale {s : Values} (hs : OnScale s) (p : Param) {x : ℚ}
    (hx : x ∈ fibonacciScale) : OnScale (setParam s p x) := by
  obtain ⟨h1, h2, h3, h4⟩ := hs
  cases p
  · exact ⟨hx, h2, h3, h4⟩
  · exact ⟨h1, hx, h3, h4⟩
  · exact ⟨h1, h2, hx, h4⟩
  · exact ⟨h1, h2, h3, hx⟩

lemma maybeSnap_onScale {s : Values} (hs : OnScale s) (p : Param)
    (o : Option ℚ) : OnScale (maybeSnap s p o) := by
  cases o with
  | some x => exact setParam_onScale hs p (getClosestFibonacci_mem x)
  | none => exact hs

lemma reachable_onScale {s : Values} (h : ReachableValues s) : OnScale s := by
  induction h with
  | init => exact initial_onScale
  | reset _ => exact initial_onScale
  | slider p raw _ ih =>
    exact setParam_onScale ih p (getClosestFibonacci_mem raw)
  | setVals bv u rr e _ ih =>
    exact maybeSnap_onScale
      (maybeSnap_onScale (maybeSnap_onScale (maybeSnap_onScale ih _ bv) _ u)
        _ rr) _ e

lemma reachable_effort_ge_one {s : Values} (h : ReachableValues s) :
    1 ≤ s.effort :=
  one_le_of_mem_scale (reachable_onScale h).2.2.2

lemma reachable_calculate_ok {s : Values} (h : ReachableValues s) (p : ℕ) :
    ∃ q, calculateWSJF s p = Except.ok q := by
  have h1 : 1 ≤ s.effort := reachable_effort_ge_one h
  have h0 : s.effort ≠ 0 := by intro h0; rw [h0] at h1; norm_num at h1
  refine ⟨roundTo p ((s.businessValue + s.urgency + s.riskReduction) / s.effort), ?_⟩
  simp [calculateWSJF, h0]

/-- Claim C8: getClosestFibonacci always returns a member of the scale
[1, 2, 3, 5, 8, 13, 21] minimizing absolute distance to its input, ties
resolved to the earlier scale element (every element left of the result
is strictly farther); since every value stored through
handleSliderChange and setValues passes through this snap, effort is
always at least 1 and the zero-effort error branch of calculateWSJF is
unreachable. -/
theorem c8_fibonacci_snap :
    (∀ v : ℚ,
        getClosestFibonacci v ∈ fibonacciScale ∧
        (∀ f ∈ fibonacciScale, |getClosestFibonacci v - v| ≤ |f - v|) ∧
        (∃ l1 l2, fibonacciScale = l1 ++ getClosestFibonacci v :: l2 ∧
          ∀ y ∈ l1, |getClosestFibonacci v - v| < |y - v|)) ∧
    (∀ s : Values, ReachableValues s →
        1 ≤ s.effort ∧ ∀ p : ℕ, ∃ q, calculateWSJF s p = Except.ok q) := by
  constructor
  · intro v
    exact ⟨getClosestFibonacci_mem v, getClosestFibonacci_min v,
      getClosestFibonacci_leftmost v⟩
  · intro s hs
    exact ⟨reachable_effort_ge_one hs, reachable_calculate_ok hs⟩

/-- Witness for C8 at the constructor's default values. -/
theorem c8_fibonacci_snap_witness :
    1 ≤ initialValues.effort ∧
      ∃ q, calculateWSJF initialValues 1 = Except.ok q :=
  ⟨(c8_fibonacci_snap.2 initialValues ReachableValues.init).1,
    (c8_fibonacci_snap.2 initialValues ReachableValues.init).2 1⟩

/-- Claim C9: after every saveCalculation the history holds at most
maxHistory entries (default 10), the just-saved entry is at index 0,
and the previous entries keep their relative order with the overflow
dropped from the tail (the new history is a take of the unshifted
one). -/
theorem c9_history_bound {α : Type} :
    ∀ (p : Option ℕ) (history : List α) (entry : α),
      saveCalculation (mkMaxHistory p) history entry
          = (entry :: history).take (mkMaxHistory p) ∧
      (saveCalculation (mkMaxHistory p) history entry).length ≤ mkMaxHistory p ∧
      (saveCalculation (mkMaxHistory p) history entry).head? = some entry ∧
      (saveCalculation (mkMaxHistory p) history entry).tail
          = history.take (mkMaxHistory p - 1) ∧
      mkMaxHistory none = 10 := by
  intro p history entry
  obtain ⟨k, hk⟩ : ∃ k, mkMaxHistory p = k + 1 := by
    cases p with
    | none => exact ⟨9, rfl⟩
    | some n =>
      cases n with
      | zero => exact ⟨9, rfl⟩
      | succ k => exact ⟨k, rfl⟩
  have htake : saveCalculation (mkMaxHistory p) history entry
      = (entry :: history).take (mkMaxHistory p) := by
    unfold saveCalculation
    split
    · rfl
    · next h => exact (List.take_of_length_le (not_lt.mp h)).symm
  refine ⟨htake, ?_, ?_, ?_, rfl⟩
  · rw [htake, List.length_take]
    exact min_le_left _ _
  · rw [htake, hk, List.take_succ_cons]
    rfl
  · rw [htake, hk, List.take_succ_cons]
    simp

/-- Claim C1: for every value assignment held by the calculator the
score is the single expression (businessValue + urgency +
riskReduction) / effort rounded to the configured precision, whose
default is one decimal place; the content loader's inline calculator
computes the same expression to two decimals. -/
theorem c1_wsjf_formula :
    (∀ (v : Values) (p : ℕ), v.effort ≠ 0 →
        calculateWSJF v p = Except.ok (roundTo p
          ((v.businessValue + v.urgency + v.riskReduction) / v.effort))) ∧
    mkPrecision none = 1 ∧
    (∀ v : Values, 0 < v.effort →
        Except.ok (Loader.setupWSJFCalculator v.businessValue v.urgency
            v.riskReduction v.effort) = calculateWSJF v 2) := by
  refine ⟨?_, rfl, ?_⟩
  · intro v p h
    simp [calculateWSJF, h]
  · intro v h
    have h0 : v.effort ≠ 0 := ne_of_gt h
    simp [Loader.setupWSJFCalculator, calculateWSJF, h, h0]

/-- Witness for C1 at businessValue 5, urgency 3, riskReduction 2,
effort 2. -/
theorem c1_wsjf_formula_witness :
    calculateWSJF ⟨5, 3, 2, 2⟩ 1
        = Except.ok (roundTo 1 ((5 + 3 + 2) / 2)) ∧
    Except.ok (Loader.setupWSJFCalculator 5 3 2 2)
        = calculateWSJF ⟨5, 3, 2, 2⟩ 2 :=
  ⟨c1_wsjf_formula.1 ⟨5, 3, 2, 2⟩ 1 (by decide),
    c1_wsjf_formula.2.2 ⟨5, 3, 2, 2⟩ (by decide)⟩

/-- Claim C4 counterexample: at the constructor's default inputs
(8, 5, 3, 8) the score is 2.0, strictly below the minimum input 3, so
the computation is not a weighted average of the four inputs for any
choice of nonnegative weights summing to one. -/
theorem c4_weighted_average_counterexample :
    calculateWSJF initialValues 1 = Except.ok 2 ∧
    (2 : ℚ) < min (min initialValues.businessValue initialValues.urgency)
        (min initialValues.riskReduction initialValues.effort) ∧
    ¬ ∃ w1 w2 w3 w4 : ℚ, 0 ≤ w1 ∧ 0 ≤ w2 ∧ 0 ≤ w3 ∧ 0 ≤ w4 ∧
        w1 + w2 + w3 + w4 = 1 ∧
        ∀ v : Values, calculateWSJF v 1 = Except.ok
          (w1 * v.businessValue + w2 * v.urgency + w3 * v.riskReduction +
            w4 * v.effort) := by
  have heval : calculateWSJF initialValues 1 = Except.ok 2 := by
    norm_num [calculateWSJF, initialValues, roundTo]
  refine ⟨heval, by decide, ?_⟩
  rintro ⟨w1, w2, w3, w4, h1, h2, h3, h4, hsum, hall⟩
  have h := hall initialValues
  rw [heval] at h
  injection h with h
  simp only [initialValues] at h
  linarith

/-- Claim C4 amended: the score is the equal-weighted sum of the three
value inputs divided by effort — (businessValue + urgency +
riskReduction) / effort, rounded — so the unrounded score times effort
recovers that sum; it is not a weighted average of the four inputs. -/
theorem c4_weighted_average_amended :
    ∀ (v : Values) (p : ℕ), v.effort ≠ 0 →
      calculateWSJF v p = Except.ok (roundTo p
        ((v.businessValue + v.urgency + v.riskReduction) / v.effort)) ∧
      (v.businessValue + v.urgency + v.riskReduction) / v.effort * v.effort
        = v.businessValue + v.urgency + v.riskReduction := by
  intro v p h
  exact ⟨by simp [calculateWSJF, h], div_mul_cancel₀ _ h⟩

/-- Witness for the amended C4 at the default values. -/
theorem c4_weighted_average_amended_witness :
    calculateWSJF ⟨8, 5, 3, 8⟩ 1
        = Except.ok (roundTo 1 ((8 + 5 + 3) / 8)) ∧
    ((8 : ℚ) + 5 + 3) / 8 * 8 = 8 + 5 + 3 :=
  c4_weighted_average_amended ⟨8, 5, 3, 8⟩ 1 (by decide)

end WSJF


namespace Loader

lemma cacheGet_cacheSet_self (c : List (String × String)) (id content : String) :
    cacheGet (cacheSet c id content) id = some content := by
  induction c with
  | nil => simp [cacheSet, cacheGet, List.find?]
  | cons kv rest ih =>
    by_cases h : kv.1 == id
    · simp [cacheSet, h, cacheGet, List.find?]
    · simp only [cacheSet, h, Bool.false_eq_true, if_false]
      simpa [cacheGet, List.find?, h] using ih

lemma cacheGet_cacheSet_ne (c : List (String × String)) {id1 id2 : String}
    (h : id1 ≠ id2) (content : String) :
    cacheGet (cacheSet c id1 content) id2 = cacheGet c id2 := by
  have hb : (id1 == id2) = false := beq_eq_false_iff_ne.mpr h
  induction c with
  | nil => simp [cacheSet, cacheGet, List.find?, hb]
  | cons kv rest ih =>
    by_cases h1 : kv.1 == id1
    · have h2 : (kv.1 == id2) = false := by
        rw [beq_iff_eq] at h1
        rw [beq_eq_false_iff_ne, h1]
        exact h
      simp [cacheSet, h1, cacheGet, List.find?, hb, h2]
    · simp only [cacheSet, h1, Bool.false_eq_true, if_false]
      by_cases h2 : kv.1 == id2
      · simp [cacheGet, List.find?, h2]
      · simpa [cacheGet, List.find?, h1, h2] using ih

lemma isFalsy_some_ne {s : String} (h : s ≠ "") :
    isFalsy (some s) = false := by
  simp [isFalsy, h]

lemma loadSection_cache_preserve (oracle : String → Option String)
    (s : LoaderState) (i target content : String)
    (h : cacheGet s.cache target = some content) (hne : content ≠ "") :
    cacheGet (loadSection oracle s i).state.cache target = some content := by
  cases hcfg : getSectionConfig i with
  | none => simpa [loadSection, hcfg] using h
  | some cfg =>
    by_cases hfal : isFalsy (cacheGet s.cache i) = true
    · cases hor : oracle cfg.file with
      | none => simpa [loadSection, hcfg, hfal, hor] using h
      | some c =>
        have hneq : i ≠ target := by
          intro he
          subst he
          rw [h, isFalsy_some_ne hne] at hfal
          exact Bool.noConfusion hfal
        simp only [loadSection, hcfg, hfal, hor, if_true]
        rw [cacheGet_cacheSet_ne _ hneq]
        exact h
    · simpa [loadSection, hcfg, hfal] using h

lemma loadSection_fetches_cached (oracle : String → Option String)
    (s : LoaderState) (i content : String)
    (h : cacheGet s.cache i = some content) (hne : content ≠ "") :
    (loadSection oracle s i).fetches = 0 := by
  cases hcfg : getSectionConfig i with
  | none => simp [loadSection, hcfg]
  | some cfg =>
    have hfal : isFalsy (cacheGet s.cache i) = false := by
      rw [h]
      exact isFalsy_some_ne hne
    simp [loadSection, hcfg, hfal]

lemma loadSeqCount_cached (oracle : String → Option String)
    (target content : String) (hne : content ≠ "") (ids : List String) :
    ∀ s : LoaderState, cacheGet s.cache target = some content →
      loadSeqCount oracle s target ids = 0 := by
  induction ids with
  | nil => intro s _; rfl
  | cons i is ih =>
    intro s h
    unfold loadSeqCount
    have hrec := ih (loadSection oracle s i).state
      (loadSection_cache_preserve oracle s i target content h hne)
    rw [hrec, Nat.add_zero]
    by_cases hit : (i == target) = true
    · rw [if_pos hit]
      rw [beq_iff_eq] at hit
      subst hit
      exact loadSection_fetches_cached oracle s i content h hne
    · rw [if_neg hit]

lemma loadSeqCount_le_one (oracle : String → Option String)
    (target : String) {cfg : SectionConfig} (c : String) (ids : List String)
    (hcfg : getSectionConfig target = some cfg)
    (hor : oracle cfg.file = some c) (hcne : c ≠ "") :
    ∀ s : LoaderState, loadSeqCount oracle s target ids ≤ 1 := by
  induction ids with
  | nil => intro s; exact Nat.zero_le 1
  | cons i is ih =>
    intro s
    unfold loadSeqCount
    by_cases hit : (i == target) = true
    · rw [if_pos hit]
      rw [beq_iff_eq] at hit
      subst hit
      by_cases hfal : isFalsy (cacheGet s.cache i) = true
      · have hload : loadSection oracle s i
            = ⟨⟨cacheSet s.cache i c, some i⟩, 1, some c⟩ := by
          simp [loadSection, hcfg, hfal, hor]
        have hrest := loadSeqCount_cached oracle i c hcne is
          (loadSection oracle s i).state
          (by rw [hload]; exact cacheGet_cacheSet_self _ _ _)
        rw [hload] at hrest ⊢
        simp [hrest]
      · obtain ⟨content, hc, hcne2⟩ :
            ∃ content, cacheGet s.cache i = some content ∧ content ≠ "" := by
          cases hc : cacheGet s.cache i with
          | none => rw [hc] at hfal; simp [isFalsy] at hfal
          | some s2 =>
            rw [hc] at hfal
            simp only [isFalsy, Bool.not_eq_true, beq_eq_false_iff_ne,
              ne_eq] at hfal
            exact ⟨s2, rfl, hfal⟩
        have h0 := loadSection_fetches_cached oracle s i content hc hcne2
        have hrest := loadSeqCount_cached oracle i content hcne2 is
          (loadSection oracle s i).state
          (loadSection_cache_preserve oracle s i i content hc hcne2)
        omega
    · rw [if_neg hit, Nat.zero_add]
      exact ih (loadSection oracle s i).state

/-- Claim C2 counterexample: when the network serves an empty body for
a configured section (a valid 200 response), the first load stores ""
in the cache, but the falsy cache-hit test if (!content) treats it as a
miss, so the very next loadSection of the same id fetches again — two
loads perform two fetches, and the claimed at-most-one-fetch bound
fails. -/
theorem c2_loader_cache_counterexample :
    cacheGet (loadSection (fun _ => some "") ⟨[], none⟩
        "scrum-foundations").state.cache "scrum-foundations" = some "" ∧
    (loadSection (fun _ => some "")
        (loadSection (fun _ => some "") ⟨[], none⟩
          "scrum-foundations").state "scrum-foundations").fetches = 1 ∧
    loadSeqCount (fun _ => some "") ⟨[], none⟩ "scrum-foundations"
        ["scrum-foundations", "scrum-foundations"] = 2 := by
  refine ⟨?_, ?_, ?_⟩ <;> decide

/-- Claim C2 amended: the loader's caching map — an id not in the
configuration leaves the whole load result trivial (cache and
currentSection untouched); whenever the cached entry is falsy (absent
or the empty string) a successful load fetches once and stores the
content in the cache; a load of a cached nonempty content renders it
with no fetch; and along any sequence of loadSection calls a configured
id whose file the network serves with nonempty content is fetched at
most once.  A section file served as the empty string is re-fetched on
every later load of that id (see the counterexample). -/
theorem c2_loader_cache :
    (∀ (oracle : String → Option String) (s : LoaderState) (id : String),
        getSectionConfig id = none → loadSection oracle s id = ⟨s, 0, none⟩) ∧
    (∀ (oracle : String → Option String) (s : LoaderState)
        (id : String) (cfg : SectionConfig) (content : String),
        getSectionConfig id = some cfg →
        isFalsy (cacheGet s.cache id) = true →
        oracle cfg.file = some content →
        loadSection oracle s id
            = ⟨⟨cacheSet s.cache id content, some id⟩, 1, some content⟩ ∧
        cacheGet (loadSection oracle s id).state.cache id = some content) ∧
    (∀ (oracle : String → Option String) (s : LoaderState)
        (id : String) (cfg : SectionConfig) (content : String),
        getSectionConfig id = some cfg → cacheGet s.cache id = some content →
        content ≠ "" →
        loadSection oracle s id = ⟨⟨s.cache, some id⟩, 0, some content⟩) ∧
    (∀ (oracle : String → Option String) (s : LoaderState)
        (target : String) (cfg : SectionConfig) (c : String)
        (ids : List String),
        getSectionConfig target = some cfg → oracle cfg.file = some c →
        c ≠ "" →
        loadSeqCount oracle s target ids ≤ 1) := by
  refine ⟨?_, ?_, ?_, ?_⟩
  · intro oracle s id h
    simp [loadSection, h]
  · intro oracle s id cfg content hcfg hfal hor
    have hload : loadSection oracle s id
        = ⟨⟨cacheSet s.cache id content, some id⟩, 1, some content⟩ := by
      simp [loadSection, hcfg, hfal, hor]
    exact ⟨hload, by rw [hload]; exact cacheGet_cacheSet_self _ _ _⟩
  · intro oracle s id cfg content hcfg hhit hne
    have hfal : isFalsy (some content) = false := isFalsy_some_ne hne
    simp [loadSection, hcfg, hhit, hfal]
  · intro oracle s target cfg c ids hcfg hor hcne
    exact loadSeqCount_le_one oracle target c ids hcfg hor hcne s

/-- Witness for the amended C2: a three-call sequence revisiting
scrum-foundations, served nonempty content, fetches its file at most
once. -/
theorem c2_loader_cache_witness :
    loadSeqCount (fun _ => some "html") ⟨[], none⟩ "scrum-foundations"
        ["scrum-foundations", "estimacion-agil", "scrum-foundations"] ≤ 1 :=
  c2_loader_cache.2.2.2 (fun _ => some "html") ⟨[], none⟩ "scrum-foundations"
    ⟨"Fundamentos SCRUM", "sections/scrum-foundations.html", "📋"⟩ "html"
    ["scrum-foundations", "estimacion-agil", "scrum-foundations"]
    (by decide) rfl (by decide)

end Loader

namespace Tabs

/-- Claim C7: there is a tab click for which TabManager.switchTab and
the handler installed by ContentLoader.initializeTabs disagree — the
loader handler deactivates a content in another container that
switchTab leaves active, and switchTab writes aria-selected attributes
the loader handler never sets. -/
theorem c7_tab_conflict :
    ∃ (d : Doc) (ci bi : ℕ),
      activeContentIds (switchTab d ci bi)
          ≠ activeContentIds (loaderTabClick d ci bi) ∧
      buttonAriaSelected (switchTab d ci bi)
          ≠ buttonAriaSelected (loaderTabClick d ci bi) := by
  refine ⟨⟨[⟨[⟨some "t1", false, none⟩], [⟨"t1", false, none⟩]⟩,
            ⟨[], [⟨"t2", true, none⟩]⟩]⟩, 0, 0, ?_, ?_⟩ <;> decide

end Tabs


namespace Board

lemma mem_updateFirstTask {tasks : List Task} {taskId : String}
    {f : Task → Task} {t : Task} (h : t ∈ updateFirstTask tasks taskId f) :
    t ∈ tasks ∨ ∃ t2 ∈ tasks, t = f t2 := by
  induction tasks with
  | nil => simp [updateFirstTask] at h
  | cons t0 ts ih =>
    by_cases h0 : (t0.id == taskId) = true
    · rw [updateFirstTask, if_pos h0] at h
      rcases List.mem_cons.mp h with rfl | hmem
      · exact Or.inr ⟨t0, List.mem_cons_self _ _, rfl⟩
      · exact Or.inl (List.mem_cons_of_mem _ hmem)
    · rw [updateFirstTask, if_neg h0] at h
      rcases List.mem_cons.mp h with rfl | hmem
      · exact Or.inl (List.mem_cons_self _ _)
      · rcases ih hmem with h1 | ⟨t2, ht2, rfl⟩
        · exact Or.inl (List.mem_cons_of_mem _ h1)
        · exact Or.inr ⟨t2, List.mem_cons_of_mem _ ht2, rfl⟩

lemma mem_eraseFirstTask {tasks : List Task} {taskId : String} {t : Task}
    (h : t ∈ eraseFirstTask tasks taskId) : t ∈ tasks := by
  induction tasks with
  | nil => simp [eraseFirstTask] at h
  | cons t0 ts ih =>
    by_cases h0 : (t0.id == taskId) = true
    · rw [eraseFirstTask, if_pos h0] at h
      exact List.mem_cons_of_mem _ h
    · rw [eraseFirstTask, if_neg h0] at h
      rcases List.mem_cons.mp h with rfl | hmem
      · exact List.mem_cons_self _ _
      · exact List.mem_cons_of_mem _ (ih hmem)

lemma findTaskById_updateFirstTask (tasks : List Task) (taskId : String)
    (f : Task → Task) (hid : ∀ t, (f t).id = t.id) :
    findTaskById (updateFirstTask tasks taskId f) taskId
      = (findTaskById tasks taskId).map f := by
  induction tasks with
  | nil => simp [findTaskById, updateFirstTask, List.find?]
  | cons t0 ts ih =>
    by_cases h0 : (t0.id == taskId) = true
    · have hf : ((f t0).id == taskId) = true := by rw [hid t0]; exact h0
      rw [updateFirstTask, if_pos h0]
      simp [findTaskById, List.find?, hf, h0]
    · rw [updateFirstTask, if_neg h0]
      simp only [findTaskById, List.find?, h0]
      exact ih

lemma statusOf_mk (tasks : List Task) (n : ℕ) (st : Storage)
    (taskId : String) :
    statusOf ⟨tasks, n, st⟩ taskId
      = (findTaskById tasks taskId).map (fun t => t.status) := rfl

lemma statusOf_applyEvent_accepted (cfg : BoardConfig) (s : BoardState)
    (taskId : String) (e : MoveEvent)
    (h : eventAccepted cfg s taskId e = true) :
    statusOf (applyEvent cfg s taskId e) taskId = some (eventTarget e) := by
  cases e with
  | move now target =>
    simp only [eventAccepted] at h
    obtain ⟨task, hfind⟩ := Option.isSome_iff_exists.mp h
    simp only [applyEvent, moveTask, hfind]
    rw [statusOf_mk, findTaskById_updateFirstTask s.tasks taskId
      (fun t => { t with status := target }) (fun t => rfl), hfind]
    rfl
  | drop now target =>
    simp only [eventAccepted] at h
    cases hfind : findTaskById s.tasks taskId with
    | none =>
      simp only [hfind] at h
      exact absurd h (by simp)
    | some task =>
      simp only [hfind] at h
      by_cases hst : (task.status == target) = true
      · rw [if_pos hst] at h
        exact absurd h (by simp)
      · rw [if_neg hst] at h
        cases hmax : cfg.maxTasksPerColumn with
        | some m =>
          simp only [hmax] at h
          have hlt := of_decide_eq_true h
          simp only [applyEvent, handleDrop, hfind]
          rw [if_neg hst]
          simp only [hmax]
          rw [if_neg (not_le.mpr hlt)]
          rw [statusOf_mk, findTaskById_updateFirstTask s.tasks taskId
            (fun t => { t with status := target, movedAt := now })
            (fun t => rfl), hfind]
          rfl
        | none =>
          simp only [applyEvent, handleDrop, hfind]
          rw [if_neg hst]
          simp only [hmax]
          rw [statusOf_mk, findTaskById_updateFirstTask s.tasks taskId
            (fun t => { t with status := target, movedAt := now })
            (fun t => rfl), hfind]
          rfl

lemma acceptedRun_last_status (cfg : BoardConfig) (taskId : String) :
    ∀ (es : List MoveEvent) (s : BoardState) (e : MoveEvent),
      acceptedRun cfg taskId s es = true → es.getLast? = some e →
      statusOf (applyEvents cfg taskId s es) taskId
        = some (eventTarget e) := by
  intro es
  induction es with
  | nil =>
    intro s e _ hlast
    exact absurd hlast (by simp)
  | cons e0 es ih =>
    intro s e hrun hlast
    have hacc : eventAccepted cfg s taskId e0 = true ∧
        acceptedRun cfg taskId (applyEvent cfg s taskId e0) es = true := by
      simpa [acceptedRun, Bool.and_eq_true] using hrun
    cases es with
    | nil =>
      have he : e0 = e := by simpa using hlast
      subst he
      simpa [applyEvents] using
        statusOf_applyEvent_accepted cfg s taskId e0 hacc.1
    | cons e1 es2 =>
      have hlast2 : (e1 :: es2).getLast? = some e := by
        rw [List.getLast?_cons_cons] at hlast
        exact hlast
      have hih := ih (applyEvent cfg s taskId e0) e hacc.2 hlast2
      simpa [applyEvents, List.foldl_cons] using hih

lemma handleDrop_full (cfg : BoardConfig) (now : String) (s : BoardState)
    (taskId target : String) (m : ℕ)
    (hmax : cfg.maxTasksPerColumn = some m)
    (hfull : m ≤ (s.tasks.filter (fun t => t.status == target)).length) :
    handleDrop cfg now s taskId target = s := by
  cases hfind : findTaskById s.tasks taskId with
  | none => simp [handleDrop, hfind]
  | some task =>
    by_cases hst : (task.status == target) = true
    · simp [handleDrop, hfind, hst]
    · simp [handleDrop, hfind, hst, hmax, hfull]

/-- Claim C6 amended: along any run of accepted move events on a task
the final status is the target of the last event; a handleDrop into a
full column (under a configured maxTasksPerColumn) rejects the move and
leaves the whole board state unchanged; moveTask, by contrast, performs
no column-limit check (see the counterexample). -/
theorem c6_last_event_wins_amended :
    (∀ (cfg : BoardConfig) (taskId : String) (es : List MoveEvent)
        (s : BoardState) (e : MoveEvent),
        acceptedRun cfg taskId s es = true → es.getLast? = some e →
        statusOf (applyEvents cfg taskId s es) taskId
          = some (eventTarget e)) ∧
    (∀ (cfg : BoardConfig) (now : String) (s : BoardState)
        (taskId target : String) (m : ℕ),
        cfg.maxTasksPerColumn = some m →
        m ≤ (s.tasks.filter (fun t => t.status == target)).length →
        handleDrop cfg now s taskId target = s) :=
  ⟨fun cfg taskId es s e h1 h2 =>
      acceptedRun_last_status cfg taskId es s e h1 h2,
   fun cfg now s taskId target m h1 h2 =>
      handleDrop_full cfg now s taskId target m h1 h2⟩

/-- Claim C6 counterexample: with maxTasksPerColumn = 1 and the done
column already holding one task, the public moveTask still moves a
second task into done — the move is not rejected and the task list
changes. -/
theorem c6_last_event_wins_counterexample :
    (mkBoardConfig ⟨none, none, none, some 1⟩).maxTasksPerColumn = some 1 ∧
    1 ≤ (((⟨[⟨"task-a", "A", "", 2, "high", "done", "task", "", [],
            "t0", "t0", ""⟩,
          ⟨"task-b", "B", "", 1, "low", "backlog", "task", "", [],
            "t0", "t0", ""⟩], 3, none⟩ : BoardState)).tasks.filter
        (fun t => t.status == "done")).length ∧
    (moveTask (mkBoardConfig ⟨none, none, none, some 1⟩) "t1"
        ⟨[⟨"task-a", "A", "", 2, "high", "done", "task", "", [],
            "t0", "t0", ""⟩,
          ⟨"task-b", "B", "", 1, "low", "backlog", "task", "", [],
            "t0", "t0", ""⟩], 3, none⟩
        "task-b" "done").tasks
      ≠ [⟨"task-a", "A", "", 2, "high", "done", "task", "", [],
            "t0", "t0", ""⟩,
         ⟨"task-b", "B", "", 1, "low", "backlog", "task", "", [],
            "t0", "t0", ""⟩] := by
  refine ⟨rfl, ?_, ?_⟩ <;> decide

/-- Witness for the amended C6: a two-event accepted run ends on the
last target, and a drop into the full done column is a no-op. -/
theorem c6_last_event_wins_witness :
    statusOf (applyEvents (mkBoardConfig ⟨none, none, none, none⟩) "task-1"
        ⟨loadDefaultTasks "t0", 6, none⟩
        [MoveEvent.move "t1" "progress", MoveEvent.drop "t2" "done"])
        "task-1"
      = some (eventTarget (MoveEvent.drop "t2" "done")) ∧
    handleDrop (mkBoardConfig ⟨none, none, none, some 1⟩) "t3"
        ⟨[⟨"task-a", "A", "", 2, "high", "done", "task", "", [],
            "t0", "t0", ""⟩,
          ⟨"task-b", "B", "", 1, "low", "backlog", "task", "", [],
            "t0", "t0", ""⟩], 3, none⟩ "task-b" "done"
      = ⟨[⟨"task-a", "A", "", 2, "high", "done", "task", "", [],
            "t0", "t0", ""⟩,
          ⟨"task-b", "B", "", 1, "low", "backlog", "task", "", [],
            "t0", "t0", ""⟩], 3, none⟩ :=
  ⟨c6_last_event_wins_amended.1 (mkBoardConfig ⟨none, none, none, none⟩)
      "task-1" [MoveEvent.move "t1" "progress", MoveEvent.drop "t2" "done"]
      ⟨loadDefaultTasks "t0", 6, none⟩ (MoveEvent.drop "t2" "done")
      (by decide) rfl,
   c6_last_event_wins_amended.2 (mkBoardConfig ⟨none, none, none, some 1⟩)
      "t3" ⟨[⟨"task-a", "A", "", 2, "high", "done", "task", "", [],
            "t0", "t0", ""⟩,
          ⟨"task-b", "B", "", 1, "low", "backlog", "task", "", [],
            "t0", "t0", ""⟩], 3, none⟩ "task-b" "done" 1 rfl (by decide)⟩

lemma statusInv_applyOp (cfg : BoardConfig) (s : BoardState) (op : BoardOp)
    (hop : opTargetValid op = true) (hs : StatusInv s) :
    StatusInv (applyOp cfg s op) := by
  cases op with
  | create now d =>
    intro t ht
    simp only [applyOp, createTask] at ht
    rcases List.mem_append.mp ht with hmem | hmem
    · exact hs t hmem
    · have heq : t = _ := List.mem_singleton.mp hmem
      rw [heq]
      simp [validColumns]
  | drop now taskId target =>
    have htarget : target ∈ validColumns := of_decide_eq_true hop
    cases hfind : findTaskById s.tasks taskId with
    | none => simpa [applyOp, handleDrop, hfind] using hs
    | some task =>
      by_cases hst : (task.status == target) = true
      · simp only [applyOp, handleDrop, hfind]
        rw [if_pos hst]
        exact hs
      · cases hmax : cfg.maxTasksPerColumn with
        | some m =>
          by_cases hfull :
              m ≤ (s.tasks.filter (fun t => t.status == target)).length
          · simp only [applyOp, handleDrop, hfind, hmax]
            rw [if_neg hst, if_pos hfull]
            exact hs
          · simp only [applyOp, handleDrop, hfind, hmax]
            rw [if_neg hst, if_neg hfull]
            intro t ht
            rcases mem_updateFirstTask ht with hmem | ⟨t2, _, rfl⟩
            · exact hs t hmem
            · exact htarget
        | none =>
          simp only [applyOp, handleDrop, hfind, hmax]
          rw [if_neg hst]
          intro t ht
          rcases mem_updateFirstTask ht with hmem | ⟨t2, _, rfl⟩
          · exact hs t hmem
          · exact htarget
  | update now taskId d =>
    cases hfind : findTaskById s.tasks taskId with
    | none => simpa [applyOp, updateTask, hfind] using hs
    | some task =>
      simp only [applyOp, updateTask, hfind]
      intro t ht
      rcases mem_updateFirstTask ht with hmem | ⟨t2, ht2, rfl⟩
      · exact hs t hmem
      · exact hs t2 ht2
  | del now taskId =>
    cases hfind : findTaskById s.tasks taskId with
    | none => simpa [applyOp, deleteTask, hfind] using hs
    | some task =>
      simp only [applyOp, deleteTask, hfind]
      intro t ht
      exact hs t (mem_eraseFirstTask ht)
  | move now taskId target =>
    have htarget : target ∈ validColumns := of_decide_eq_true hop
    cases hfind : findTaskById s.tasks taskId with
    | none => simpa [applyOp, moveTask, hfind] using hs
    | some task =>
      simp only [applyOp, moveTask, hfind]
      intro t ht
      rcases mem_updateFirstTask ht with hmem | ⟨t2, _, rfl⟩
      · exact hs t hmem
      · exact htarget

lemma statusInv_applyOps (cfg : BoardConfig) :
    ∀ (ops : List BoardOp) (s : BoardState),
      (∀ op ∈ ops, opTargetValid op = true) → StatusInv s →
      StatusInv (applyOps cfg s ops) := by
  intro ops
  induction ops with
  | nil => intro s _ hs; exact hs
  | cons op ops ih =>
    intro s hops hs
    have h1 := statusInv_applyOp cfg s op (hops op (List.mem_cons_self _ _)) hs
    have h2 := ih (applyOp cfg s op)
      (fun o ho => hops o (List.mem_cons_of_mem _ ho)) h1
    simpa [applyOps, List.foldl_cons] using h2

lemma statusInv_default (now : String) (n : ℕ) (st : Storage) :
    StatusInv ⟨loadDefaultTasks now, n, st⟩ := by
  intro t ht
  simp only [loadDefaultTasks, List.mem_cons, List.not_mem_nil,
    or_false] at ht
  rcases ht with rfl | rfl | rfl | rfl | rfl <;> simp [validColumns]

/-- Claim C5 amended: starting from the default task set, any sequence
of createTask, handleDrop, updateTask, deleteTask and moveTask keeps
every task's status in the four column ids, provided every drop/move
target is one of those ids; the public moveTask with an arbitrary
status string breaks the invariant (see the counterexample). -/
theorem c5_status_invariant_amended :
    ∀ (cfg : BoardConfig) (now : String) (n : ℕ) (st : Storage)
      (ops : List BoardOp),
      (∀ op ∈ ops, opTargetValid op = true) →
      ∀ t ∈ (applyOps cfg ⟨loadDefaultTasks now, n, st⟩ ops).tasks,
        t.status ∈ validColumns := by
  intro cfg now n st ops hops
  exact statusInv_applyOps cfg ops ⟨loadDefaultTasks now, n, st⟩ hops
    (statusInv_default now n st)

/-- Claim C5 counterexample: moveTask accepts any status string, so a
single public moveTask to the string doing leaves a task whose status
is none of the four column ids. -/
theorem c5_status_invariant_counterexample :
    ¬ ∀ t ∈ (applyOps (mkBoardConfig ⟨none, none, none, none⟩)
          ⟨loadDefaultTasks "t0", 6, none⟩
          [BoardOp.move "t1" "task-1" "doing"]).tasks,
        t.status ∈ validColumns := by
  decide

/-- Witness for the amended C5: one valid move keeps all statuses in
the four columns. -/
theorem c5_status_invariant_witness :
    (applyOps (mkBoardConfig ⟨none, none, none, none⟩)
        ⟨loadDefaultTasks "t0", 6, none⟩
        [BoardOp.move "t1" "task-1" "progress"]).tasks.all
      (fun t => decide (t.status ∈ validColumns)) = true := by
  rw [List.all_eq_true]
  intro t ht
  exact decide_eq_true
    (c5_status_invariant_amended (mkBoardConfig ⟨none, none, none, none⟩)
      "t0" 6 none [BoardOp.move "t1" "task-1" "progress"] (by decide) t ht)

lemma mkBoardConfig_sprintName_ne (p : BoardProps) :
    (mkBoardConfig p).sprintName ≠ "" := by
  simp only [mkBoardConfig]
  cases hp : p.sprintName with
  | none => decide
  | some s =>
    by_cases hs : s = ""
    · simp only [jsOrDefault, if_pos hs]
      decide
    · simp only [jsOrDefault, if_neg hs]
      exact hs

lemma mkBoardConfig_sprintDates_ne (p : BoardProps) :
    (mkBoardConfig p).sprintDates ≠ "" := by
  simp only [mkBoardConfig]
  cases hp : p.sprintDates with
  | none => decide
  | some s =>
    by_cases hs : s = ""
    · simp only [jsOrDefault, if_pos hs]
      decide
    · simp only [jsOrDefault, if_neg hs]
      exact hs

/-- Claim C3 amended: with autoSave enabled (the default), saveData
followed by loadData restores exactly the saved tasks, sprintName and
sprintDates; with autoSave disabled saveData writes nothing (see the
counterexample).  With no stored entry, or an entry JSON.parse rejects,
loadData falls back to the default task set. -/
theorem c3_roundtrip_amended :
    (∀ (p : BoardProps) (tasks : List Task) (now now2 : String)
        (st : Storage) (cfg2 : BoardConfig),
        (mkBoardConfig p).autoSave = true →
        loadData cfg2 (saveData (mkBoardConfig p) tasks now st) now2
          = (tasks,
             { cfg2 with
                sprintName := (mkBoardConfig p).sprintName
                sprintDates := (mkBoardConfig p).sprintDates })) ∧
    (∀ (cfg : BoardConfig) (now : String),
        loadData cfg none now = (loadDefaultTasks now, cfg) ∧
        loadData cfg (some none) now = (loadDefaultTasks now, cfg)) := by
  constructor
  · intro p tasks now now2 st cfg2 hauto
    have hname := mkBoardConfig_sprintName_ne p
    have hdates := mkBoardConfig_sprintDates_ne p
    simp only [saveData, hauto, if_true, loadData, Option.getD_some]
    rw [if_neg hname, if_neg hdates]
  · intro cfg now
    exact ⟨rfl, rfl⟩

/-- Claim C3 counterexample: constructed with autoSave: false, saveData
is a no-op, so the save/load round trip returns the default task set
instead of the saved one-task list. -/
theorem c3_roundtrip_counterexample :
    loadData (mkBoardConfig ⟨none, none, some false, none⟩)
        (saveData (mkBoardConfig ⟨none, none, some false, none⟩)
          [⟨"task-x", "Tarea X", "", 1, "low", "backlog", "task", "", [],
              "t0", "t0", ""⟩] "t1" none) "t2"
      ≠ ([⟨"task-x", "Tarea X", "", 1, "low", "backlog", "task", "", [],
              "t0", "t0", ""⟩],
         mkBoardConfig ⟨none, none, some false, none⟩) := by
  decide

/-- Witness for the amended C3 at a concrete board. -/
theorem c3_roundtrip_witness :
    loadData ⟨"Otro Sprint", "Dic 2024", true, none⟩
        (saveData (mkBoardConfig ⟨none, none, none, none⟩)
          [⟨"task-x", "Tarea X", "", 1, "low", "backlog", "task", "", [],
              "t0", "t0", ""⟩] "t1" none) "t2"
      = ([⟨"task-x", "Tarea X", "", 1, "low", "backlog", "task", "", [],
              "t0", "t0", ""⟩],
         { (⟨"Otro Sprint", "Dic 2024", true, none⟩ : BoardConfig) with
            sprintName := (mkBoardConfig ⟨none, none, none, none⟩).sprintName
            sprintDates :=
              (mkBoardConfig ⟨none, none, none, none⟩).sprintDates }) :=
  c3_roundtrip_amended.1 ⟨none, none, none, none⟩
    [⟨"task-x", "Tarea X", "", 1, "low", "backlog", "task", "", [],
        "t0", "t0", ""⟩] "t1" "t2" none
    ⟨"Otro Sprint", "Dic 2024", true, none⟩ rfl

lemma filterMapSum_nonneg_le {α : Type} (f : α → ℤ) (p : α → Bool) :
    ∀ l : List α, (∀ x ∈ l, 0 ≤ f x) →
      0 ≤ ((l.filter p).map f).sum ∧
        ((l.filter p).map f).sum ≤ (l.map f).sum := by
  intro l
  induction l with
  | nil => intro _; simp
  | cons a l ih =>
    intro h
    have ha := h a (List.mem_cons_self a l)
    obtain ⟨ih1, ih2⟩ := ih (fun x hx => h x (List.mem_cons_of_mem a hx))
    by_cases hp : p a = true
    · simp only [List.filter_cons, hp, if_true, List.map_cons,
        List.sum_cons]
      exact ⟨add_nonneg ha ih1, add_le_add_left ih2 _⟩
    · rw [Bool.not_eq_true] at hp
      simp only [List.filter_cons, hp, Bool.false_eq_true, if_false,
        List.map_cons, List.sum_cons]
      exact ⟨ih1, ih2.trans (le_add_of_nonneg_left ha)⟩

lemma jsRound_bounds {x : ℚ} (h0 : 0 ≤ x) (h1 : x ≤ 100) :
    0 ≤ jsRound x ∧ jsRound x ≤ 100 := by
  unfold jsRound
  refine ⟨Int.le_floor.mpr (by push_cast; linarith), ?_⟩
  have h2 : Int.floor (x + 1 / 2) < 101 := Int.floor_lt.mpr (by push_cast; linarith)
  omega

lemma pct_bounds (c t : ℤ) (h0 : 0 ≤ c) (hle : c ≤ t) :
    0 ≤ (if 0 < t then jsRound ((c : ℚ) / (t : ℚ) * 100) else 0) ∧
      (if 0 < t then jsRound ((c : ℚ) / (t : ℚ) * 100) else 0) ≤ 100 := by
  by_cases ht : 0 < t
  · have htq : (0 : ℚ) < (t : ℚ) := by exact_mod_cast ht
    have hx0 : 0 ≤ (c : ℚ) / (t : ℚ) * 100 := by
      apply mul_nonneg _ (by norm_num)
      exact div_nonneg (by exact_mod_cast h0) (le_of_lt htq)
    have hx1 : (c : ℚ) / (t : ℚ) * 100 ≤ 100 := by
      have hdiv : (c : ℚ) / (t : ℚ) ≤ 1 :=
        (div_le_one htq).mpr (by exact_mod_cast hle)
      calc (c : ℚ) / (t : ℚ) * 100 ≤ 1 * 100 :=
            mul_le_mul_of_nonneg_right hdiv (by norm_num)
        _ = 100 := by norm_num
    obtain ⟨b1, b2⟩ := jsRound_bounds hx0 hx1
    rw [if_pos ht]
    exact ⟨b1, b2⟩
  · rw [if_neg ht]
    norm_num

/-- Claim C10: for every task list (and card list, for the second
implementation in sprint_board.js) with nonnegative story points, the
metrics computation yields completedSP being the sum over done tasks,
totalSP the sum over all, completedSP at most totalSP and a
progressPercentage between 0 and 100, equal to 0 when totalSP is 0. -/
theorem c10_metrics_bounds :
    (∀ tasks : List Task, (∀ t ∈ tasks, 0 ≤ t.storyPoints) →
        (updateMetrics tasks).totalSP
            = (tasks.map (fun t => t.storyPoints)).sum ∧
        (updateMetrics tasks).completedSP
            = ((tasks.filter (fun t => t.status == "done")).map
                (fun t => t.storyPoints)).sum ∧
        (updateMetrics tasks).completedSP ≤ (updateMetrics tasks).totalSP ∧
        0 ≤ (updateMetrics tasks).progressPercentage ∧
        (updateMetrics tasks).progressPercentage ≤ 100 ∧
        ((updateMetrics tasks).totalSP = 0 →
          (updateMetrics tasks).progressPercentage = 0)) ∧
    (∀ cards : List TaskCard, (∀ c ∈ cards, 0 ≤ c.storyPoints) →
        (updateSprintProgress cards).completedSP
            ≤ (updateSprintProgress cards).totalSP ∧
        0 ≤ (updateSprintProgress cards).progressPercentage ∧
        (updateSprintProgress cards).progressPercentage ≤ 100 ∧
        ((updateSprintProgress cards).totalSP = 0 →
          (updateSprintProgress cards).progressPercentage = 0)) := by
  constructor
  · intro tasks h
    obtain ⟨hc0, hcle⟩ := filterMapSum_nonneg_le (fun t => t.storyPoints)
      (fun t => t.status == "done") tasks h
    obtain ⟨hp0, hp1⟩ := pct_bounds _ _ hc0 hcle
    refine ⟨rfl, rfl, hcle, hp0, hp1, ?_⟩
    intro hz
    have hz' : (tasks.map (fun t => t.storyPoints)).sum = 0 := hz
    simp [updateMetrics, hz']
  · intro cards h
    obtain ⟨hc0, hcle⟩ := filterMapSum_nonneg_le (fun c => c.storyPoints)
      (fun c => c.column == "done") cards h
    obtain ⟨hp0, hp1⟩ := pct_bounds _ _ hc0 hcle
    refine ⟨hcle, hp0, hp1, ?_⟩
    intro hz
    have hz' : (cards.map (fun c => c.storyPoints)).sum = 0 := hz
    simp [updateSprintProgress, hz']

/-- Witness for C10 at the default task set and a two-card board. -/
theorem c10_metrics_bounds_witness :
    0 ≤ (updateMetrics (loadDefaultTasks "t0")).progressPercentage ∧
    (updateMetrics (loadDefaultTasks "t0")).progressPercentage ≤ 100 ∧
    0 ≤ (updateSprintProgress [⟨3, "done"⟩, ⟨2, "backlog"⟩]).progressPercentage ∧
    (updateSprintProgress [⟨3, "done"⟩, ⟨2, "backlog"⟩]).progressPercentage ≤ 100 :=
  ⟨(c10_metrics_bounds.1 (loadDefaultTasks "t0") (by decide)).2.2.2.1,
   (c10_metrics_bounds.1 (loadDefaultTasks "t0") (by decide)).2.2.2.2.1,
   (c10_metrics_bounds.2 [⟨3, "done"⟩, ⟨2, "backlog"⟩] (by decide)).2.1,
   (c10_metrics_bounds.2 [⟨3, "done"⟩, ⟨2, "backlog"⟩] (by decide)).2.2.1⟩

end Board


end ScrumGuide
